import Mathlib

/-!
Shallow embedding of the `_quantSystem` market-data ingestion engine
(`src/ingestion_engine`), together with proofs about the registry, the
connector supervisor, the REST backfill parser and the subscription server.

Conventions of the embedding:
* Rust `u64` fields become `Nat` (no arithmetic near overflow occurs in the
  embedded code paths).
* Rust `f64` price/quantity fields become `Rat`.  The embedded code never
  computes with these values, it only parses them from wire strings and
  moves them around, so exact rationals are a faithful value model.
  `str::parse::<f64>().unwrap_or(0.0)` is modelled by `parseF64`, a parser
  for plain decimal literals (optional sign, digits, optional fraction),
  returning `0` on failure exactly like the source.
* `HashMap`/`HashSet` become association lists / lists: the code never
  depends on hash iteration order (the one order-sensitive read,
  `get_history`, sorts its result).
* `tokio::sync::broadcast` sends are modelled by returning the list of
  events published during an operation.  Serialization (`serde_json`)
  cannot fail on these types, so `broadcast_data` always publishes.
-/

namespace QuantSystem

/-- Digit-string to `Nat`: accepts a non-empty all-digit character list
(the behaviour of `u64` digit parsing inside a float literal). -/
def digitsToNat? (cs : List Char) : Option Nat :=
  if cs = [] then none
  else if cs.all (fun c => c.isDigit) then
    some (cs.foldl (fun n c => n * 10 + (c.toNat - 48)) 0)
  else none

/-- Model of Rust `str::parse::<f64>` on the plain decimal fragment
(optional `+`/`-` sign, non-empty integer digits, optional `.` followed by
non-empty fraction digits); `none` on anything else.  This is the only
shape of numeric wire string the embedded theorems evaluate, and on it Rust
float parsing yields exactly this rational (no arithmetic is performed
downstream, so no rounding concerns arise). -/
def parseDecimal? (s : String) : Option Rat :=
  let signed : Bool × List Char :=
    match s.data with
    | '-' :: rest => (true, rest)
    | '+' :: rest => (false, rest)
    | cs => (false, cs)
  let ip := signed.2.takeWhile (fun c => c ≠ '.')
  match signed.2.dropWhile (fun c => c ≠ '.') with
  | [] =>
    match digitsToNat? ip with
    | some n => some (mkRat (if signed.1 then -(n : Int) else (n : Int)) 1)
    | none => none
  | _ :: fp =>
    if fp.contains '.' then none
    else
      match digitsToNat? ip, digitsToNat? fp with
      | some n, some f =>
        let mant : Nat := n * 10 ^ fp.length + f
        some (mkRat (if signed.1 then -(mant : Int) else (mant : Int)) (10 ^ fp.length))
      | _, _ => none

/-- `s.parse().unwrap_or(0.0)` from the connectors and the REST parser. -/
def parseF64 (s : String) : Rat :=
  (parseDecimal? s).getD 0

--
-- DATA MODEL (src/ingestion_engine/src/core/models.rs)
--

inductive TradeSide where
  | Buy
  | Sell
deriving DecidableEq, Repr

structure PriceLevel where
  price : Rat
  quantity : Rat
deriving DecidableEq, Repr

structure OrderBook where
  symbol : String
  bids : List PriceLevel
  asks : List PriceLevel
  last_update_id : Nat
deriving DecidableEq, Repr

structure Trade where
  id : Nat
  symbol : String
  price : Rat
  quantity : Rat
  timestamp_ms : Nat
  side : TradeSide
deriving DecidableEq, Repr

structure AggTrade where
  id : Nat
  symbol : String
  price : Rat
  quantity : Rat
  timestamp_ms : Nat
  side : TradeSide
  first_trade_id : Nat
  last_trade_id : Nat
deriving DecidableEq, Repr

/-- `Candle`; the Rust field `open` is a Lean keyword and is embedded as
`open_`. -/
structure Candle where
  symbol : String
  interval : String
  open_ : Rat
  high : Rat
  low : Rat
  close : Rat
  volume : Rat
  start_time : Nat
  close_time : Nat
  is_closed : Bool
deriving DecidableEq, Repr

structure Ticker where
  symbol : String
  price_change : Rat
  price_change_percent : Rat
  last_price : Rat
  open_price : Rat
  high_price : Rat
  low_price : Rat
  volume : Rat
  quote_volume : Rat
  timestamp : Nat
deriving DecidableEq, Repr

structure BookTicker where
  symbol : String
  best_bid_price : Rat
  best_bid_qty : Rat
  best_ask_price : Rat
  best_ask_qty : Rat
deriving DecidableEq, Repr

structure MarkPrice where
  symbol : String
  mark_price : Rat
  index_price : Rat
  next_funding_time : Nat
deriving DecidableEq, Repr

structure Liquidation where
  symbol : String
  price : Rat
  quantity : Rat
  side : TradeSide
deriving DecidableEq, Repr

structure FundingRate where
  symbol : String
  rate : Rat
  time : Nat
deriving DecidableEq, Repr

structure OpenInterest where
  symbol : String
  open_interest : Rat
  time : Nat
deriving DecidableEq, Repr

/-- The tagged market-event union `MarketData`. -/
inductive MarketData where
  | orderBook (b : OrderBook)
  | trade (t : Trade)
  | aggTrade (t : AggTrade)
  | candle (c : Candle)
  | historicalCandles (cs : List Candle)
  | ticker (t : Ticker)
  | bookTicker (t : BookTicker)
  | markPrice (t : MarkPrice)
  | liquidation (t : Liquidation)
  | fundingRate (t : FundingRate)
  | openInterest (t : OpenInterest)
deriving DecidableEq, Repr

inductive Exchange where
  | Binance
  | Bybit
  | Coinbase
deriving DecidableEq, Repr

inductive MarketType where
  | Spot
  | LinearFuture
  | InverseFuture
  | Option
deriving DecidableEq, Repr

/-- `Display`/`Debug` rendering of `Exchange` (`write!(f, "{:?}", self)`). -/
def Exchange.display : Exchange → String
  | .Binance => "Binance"
  | .Bybit => "Bybit"
  | .Coinbase => "Coinbase"

/-- `Display`/`Debug` rendering of `MarketType`. -/
def MarketType.display : MarketType → String
  | .Spot => "Spot"
  | .LinearFuture => "LinearFuture"
  | .InverseFuture => "InverseFuture"
  | .Option => "Option"

structure StreamConfig where
  raw_trades : Bool
  agg_trades : Bool
  order_book : Bool
  kline_intervals : List String
  ticker : Bool
  book_ticker : Bool
  mark_price : Bool
  index_price : Bool
  liquidation : Bool
  funding_rate : Bool
  open_interest : Bool
  greeks : Bool
deriving DecidableEq, Repr

/-- `StreamConfig::sanitize_for_market` from core/models.rs. -/
def StreamConfig.sanitize_for_market (c : StreamConfig) (market_type : MarketType) : StreamConfig :=
  match market_type with
  | .Spot =>
    { c with mark_price := false, index_price := false, liquidation := false,
             funding_rate := false, open_interest := false, greeks := false }
  | .LinearFuture => { c with greeks := false }
  | .InverseFuture => { c with greeks := false }
  | .Option => c

inductive CommandAction where
  | Subscribe
  | Unsubscribe
  | FetchHistory
deriving DecidableEq, Repr

structure Command where
  action : CommandAction
  channel : String
  exchange : Exchange
  market_type : MarketType
  end_time : Option Nat
  config : Option StreamConfig
deriving Repr

--
-- SYMBOL REGISTRY (src/ingestion_engine/src/core/engine.rs)
--

structure SymbolState where
  order_book : Option OrderBook
  trades : List Trade
  agg_trades : List AggTrade
  candles : List (String × List Candle)
  ticker : Option Ticker
  book_ticker : Option BookTicker
  mark_price : Option MarkPrice
  liquidations : List Liquidation
  funding_rate : Option FundingRate
  open_interest : Option OpenInterest
deriving DecidableEq, Repr

/-- `SymbolState::new` (the capacity hints do not affect content). -/
def SymbolState.empty : SymbolState :=
  { order_book := none, trades := [], agg_trades := [], candles := [],
    ticker := none, book_ticker := none, mark_price := none,
    liquidations := [], funding_rate := none, open_interest := none }

/-- Association-list lookup, the model of `HashMap::get`. -/
def alookup {β : Type} : List (String × β) → String → Option β
  | [], _ => none
  | (k, v) :: rest, s => if k = s then some v else alookup rest s

/-- Get-or-create-then-modify, the model of the registry's two-phase
`get_or_create_symbol` followed by a single-field write, and of
`HashMap::entry(..).or_insert_with(d)` followed by a mutation. -/
def aupd {β : Type} (m : List (String × β)) (k : String) (d : β) (f : β → β) :
    List (String × β) :=
  match m with
  | [] => [(k, f d)]
  | (k', v) :: rest => if k' = k then (k', f v) :: rest else (k', v) :: aupd rest k d f

/-- The bounded-FIFO push used inline by `add_trade`, `add_agg_trade`,
`add_liquidation` and `add_candle`:
`if q.len() >= limit { q.pop_front(); } q.push_back(x)`. -/
def pushBounded {α : Type} (limit : Nat) (q : List α) (x : α) : List α :=
  (if limit ≤ q.length then q.drop 1 else q) ++ [x]

/-- The trimming loop of `load_historical_candles`:
`while q.len() > limit { q.pop_front(); }`. -/
def trimFront {α : Type} (limit : Nat) (q : List α) : List α :=
  q.drop (q.length - limit)

/-- The sort key order of `sort_by_key(|c| c.start_time)`. -/
def startLE (a b : Candle) : Prop := a.start_time ≤ b.start_time

instance : DecidableRel startLE := fun a b => Nat.decLe a.start_time b.start_time

instance : IsTotal Candle startLE := ⟨fun a b => Nat.le_total a.start_time b.start_time⟩

instance : IsTrans Candle startLE := ⟨fun _ _ _ h h' => Nat.le_trans h h'⟩

/-- `q.make_contiguous().sort_by_key(|c| c.start_time)` /
`result.sort_by_key(|c| c.start_time)`: Rust's stable sort by `start_time`.
Any two stable sorts under the same key agree on every input, so a stable
insertion sort is extensionally the same function as the source's stable
merge sort. -/
def sortByStart (q : List Candle) : List Candle :=
  q.insertionSort startLE

structure Engine where
  registry : List (String × SymbolState)
  active_ingestions : List String
  trade_limit : Nat
  candle_limit : Nat
deriving Repr

/-- `Engine::update_order_book`; returns the new engine and the events
published on the broadcast bus. -/
def Engine.update_order_book (e : Engine) (symbol : String) (book : OrderBook) :
    Engine × List MarketData :=
  let registry := aupd e.registry symbol SymbolState.empty
    (fun st => { st with order_book := some book })
  ({ e with registry := registry }, [MarketData.orderBook book])

/-- `Engine::add_trade`. -/
def Engine.add_trade (e : Engine) (symbol : String) (t : Trade) :
    Engine × List MarketData :=
  let registry := aupd e.registry symbol SymbolState.empty
    (fun st => { st with trades := pushBounded e.trade_limit st.trades t })
  ({ e with registry := registry }, [MarketData.trade t])

/-- `Engine::add_agg_trade`. -/
def Engine.add_agg_trade (e : Engine) (symbol : String) (t : AggTrade) :
    Engine × List MarketData :=
  let registry := aupd e.registry symbol SymbolState.empty
    (fun st => { st with agg_trades := pushBounded e.trade_limit st.agg_trades t })
  ({ e with registry := registry }, [MarketData.aggTrade t])

/-- `Engine::add_candle`: route by `candle.interval`, bounded push. -/
def Engine.add_candle (e : Engine) (symbol : String) (c : Candle) :
    Engine × List MarketData :=
  let registry := aupd e.registry symbol SymbolState.empty
    (fun st =>
      let candles := aupd st.candles c.interval [] (fun q => pushBounded e.candle_limit q c)
      { st with candles := candles })
  ({ e with registry := registry }, [MarketData.candle c])

/-- The body of `Engine::load_historical_candles` acting on one symbol
state: per candle, push onto its interval queue and trim the front while
over capacity; finally stable-sort every queue by `start_time`. -/
def load_apply (limit : Nat) (cs : List Candle) (st : SymbolState) : SymbolState :=
  let m := cs.foldl
    (fun m c => aupd m c.interval [] (fun q => trimFront limit (q ++ [c]))) st.candles
  { st with candles := m.map (fun p => (p.1, sortByStart p.2)) }

/-- `Engine::load_historical_candles`: early return on empty input,
otherwise `load_apply` on the topic's state.  Publishes nothing on the
bus. -/
def Engine.load_historical_candles (e : Engine) (symbol : String) (cs : List Candle) :
    Engine × List MarketData :=
  if cs.isEmpty then (e, [])
  else
    let registry := aupd e.registry symbol SymbolState.empty
      (load_apply e.candle_limit cs)
    ({ e with registry := registry }, [])

/-- `Engine::update_ticker`. -/
def Engine.update_ticker (e : Engine) (symbol : String) (t : Ticker) :
    Engine × List MarketData :=
  let registry := aupd e.registry symbol SymbolState.empty
    (fun st => { st with ticker := some t })
  ({ e with registry := registry }, [MarketData.ticker t])

/-- `Engine::update_book_ticker`. -/
def Engine.update_book_ticker (e : Engine) (symbol : String) (t : BookTicker) :
    Engine × List MarketData :=
  let registry := aupd e.registry symbol SymbolState.empty
    (fun st => { st with book_ticker := some t })
  ({ e with registry := registry }, [MarketData.bookTicker t])

/-- `Engine::update_mark_price`. -/
def Engine.update_mark_price (e : Engine) (symbol : String) (p : MarkPrice) :
    Engine × List MarketData :=
  let registry := aupd e.registry symbol SymbolState.empty
    (fun st => { st with mark_price := some p })
  ({ e with registry := registry }, [MarketData.markPrice p])

/-- `Engine::add_liquidation`. -/
def Engine.add_liquidation (e : Engine) (symbol : String) (l : Liquidation) :
    Engine × List MarketData :=
  let registry := aupd e.registry symbol SymbolState.empty
    (fun st => { st with liquidations := pushBounded e.trade_limit st.liquidations l })
  ({ e with registry := registry }, [MarketData.liquidation l])

/-- `Engine::update_funding_rate`. -/
def Engine.update_funding_rate (e : Engine) (symbol : String) (r : FundingRate) :
    Engine × List MarketData :=
  let registry := aupd e.registry symbol SymbolState.empty
    (fun st => { st with funding_rate := some r })
  ({ e with registry := registry }, [MarketData.fundingRate r])

/-- `Engine::update_open_interest`. -/
def Engine.update_open_interest (e : Engine) (symbol : String) (oi : OpenInterest) :
    Engine × List MarketData :=
  let registry := aupd e.registry symbol SymbolState.empty
    (fun st => { st with open_interest := some oi })
  ({ e with registry := registry }, [MarketData.openInterest oi])

/-- `Engine::get_recent_trades`. -/
def Engine.get_recent_trades (e : Engine) (symbol : String) : List Trade :=
  match alookup e.registry symbol with
  | some st => st.trades
  | none => []

/-- `Engine::get_history`: across all interval queues, keep
`start_time < end_time`, sort by `start_time`, and keep only the last
`limit` entries (`result.split_off(result.len() - limit)`). -/
def Engine.get_history (e : Engine) (symbol : String) (end_time : Nat) (limit : Nat) :
    List Candle :=
  match alookup e.registry symbol with
  | some st =>
    let result := st.candles.foldl
      (fun acc p => acc ++ p.2.filter (fun c => decide (c.start_time < end_time))) []
    let sorted := sortByStart result
    if limit < sorted.length then sorted.drop (sorted.length - limit) else sorted
  | none => []

/-- `Engine::request_ingestion`: `HashSet::insert`, true iff newly
inserted. -/
def Engine.request_ingestion (e : Engine) (symbol : String) : Engine × Bool :=
  if symbol ∈ e.active_ingestions then (e, false)
  else ({ e with active_ingestions := symbol :: e.active_ingestions }, true)

--
-- BINANCE CONNECTOR (src/ingestion_engine/src/connectors/binance.rs)
--

structure BinanceTradeEvent where
  id : Nat
  price : String
  quantity : String
  timestamp : Nat
  is_buyer_maker : Bool
deriving DecidableEq, Repr

structure BinanceAggTradeEvent where
  id : Nat
  price : String
  quantity : String
  timestamp : Nat
  is_buyer_maker : Bool
  first_trade_id : Nat
  last_trade_id : Nat
deriving DecidableEq, Repr

structure BinanceDepthEvent where
  last_update_id : Nat
  final_update_id : Option Nat
  bids : List (String × String)
  asks : List (String × String)
deriving DecidableEq, Repr

structure BinanceKlineData where
  start_time : Nat
  close_time : Nat
  open_ : String
  close : String
  high : String
  low : String
  volume : String
  is_closed : Bool
  interval : String
deriving DecidableEq, Repr

structure BinanceTickerEvent where
  price_change : String
  price_change_percent : String
  last_price : String
  open_price : String
  high_price : String
  low_price : String
  volume : String
  quote_volume : String
  event_time : Nat
deriving DecidableEq, Repr

structure BinanceBookTickerEvent where
  best_bid_price : String
  best_bid_qty : String
  best_ask_price : String
  best_ask_qty : String
deriving DecidableEq, Repr

structure BinanceMarkPriceEvent where
  mark_price : String
  index_price : String
  funding_rate : String
  next_funding_time : Nat
deriving DecidableEq, Repr

structure BinanceForceOrder where
  side : String
  price : String
  quantity : String
deriving DecidableEq, Repr

/-- An inbound text frame after the cheap discriminator dispatch of
`handle_message` (`text.contains("\x7be\x7d...")` checks followed by the serde
parse into the matching wire struct).  A frame matching none of the
discriminators is `unknown` and is dropped. -/
inductive BinanceFrame where
  | trade (ev : BinanceTradeEvent)
  | depth (ev : BinanceDepthEvent)
  | kline (k : BinanceKlineData)
  | aggTrade (ev : BinanceAggTradeEvent)
  | ticker (ev : BinanceTickerEvent)
  | bookTicker (ev : BinanceBookTickerEvent)
  | markPriceUpdate (ev : BinanceMarkPriceEvent)
  | forceOrder (o : BinanceForceOrder)
  | unknown
deriving DecidableEq, Repr

/-- `parse_raw_levels`. -/
def parse_raw_levels (raw : List (String × String)) : List PriceLevel :=
  raw.map (fun item => { price := parseF64 item.1, quantity := parseF64 item.2 })

/-- `handle_message` from connectors/binance.rs: decode the frame, write it
into the registry under `unique_id`, publish the event.  Note that every
event's `symbol` field is set to `unique_id`, and that no arm consults the
stream configuration. -/
def handle_message (unique_id : String) (frame : BinanceFrame) (engine : Engine) :
    Engine × List MarketData :=
  match frame with
  | .trade ev =>
    engine.add_trade unique_id
      { id := ev.id, symbol := unique_id, price := parseF64 ev.price,
        quantity := parseF64 ev.quantity, timestamp_ms := ev.timestamp,
        side := if ev.is_buyer_maker then TradeSide.Sell else TradeSide.Buy }
  | .depth ev =>
    let update_id := ev.final_update_id.getD ev.last_update_id
    engine.update_order_book unique_id
      { symbol := unique_id, bids := parse_raw_levels ev.bids,
        asks := parse_raw_levels ev.asks, last_update_id := update_id }
  | .kline k =>
    engine.add_candle unique_id
      { symbol := unique_id, interval := k.interval, open_ := parseF64 k.open_,
        high := parseF64 k.high, low := parseF64 k.low, close := parseF64 k.close,
        volume := parseF64 k.volume, start_time := k.start_time,
        close_time := k.close_time, is_closed := k.is_closed }
  | .aggTrade ev =>
    engine.add_agg_trade unique_id
      { id := ev.id, symbol := unique_id, price := parseF64 ev.price,
        quantity := parseF64 ev.quantity, timestamp_ms := ev.timestamp,
        side := if ev.is_buyer_maker then TradeSide.Sell else TradeSide.Buy,
        first_trade_id := ev.first_trade_id, last_trade_id := ev.last_trade_id }
  | .ticker ev =>
    engine.update_ticker unique_id
      { symbol := unique_id, price_change := parseF64 ev.price_change,
        price_change_percent := parseF64 ev.price_change_percent,
        last_price := parseF64 ev.last_price, open_price := parseF64 ev.open_price,
        high_price := parseF64 ev.high_price, low_price := parseF64 ev.low_price,
        volume := parseF64 ev.volume, quote_volume := parseF64 ev.quote_volume,
        timestamp := ev.event_time }
  | .bookTicker ev =>
    engine.update_book_ticker unique_id
      { symbol := unique_id, best_bid_price := parseF64 ev.best_bid_price,
        best_bid_qty := parseF64 ev.best_bid_qty,
        best_ask_price := parseF64 ev.best_ask_price,
        best_ask_qty := parseF64 ev.best_ask_qty }
  | .markPriceUpdate ev =>
    let r1 := engine.update_mark_price unique_id
      { symbol := unique_id, mark_price := parseF64 ev.mark_price,
        index_price := parseF64 ev.index_price,
        next_funding_time := ev.next_funding_time }
    let r2 := r1.1.update_funding_rate unique_id
      { symbol := unique_id, rate := parseF64 ev.funding_rate,
        time := ev.next_funding_time }
    (r2.1, r1.2 ++ r2.2)
  | .forceOrder o =>
    let side := if o.side = "SELL" then TradeSide.Sell else TradeSide.Buy
    engine.add_liquidation unique_id
      { symbol := unique_id, price := parseF64 o.price,
        quantity := parseF64 o.quantity, side := side }
  | .unknown => (engine, [])

/-- Fold `handle_message` over a sequence of inbound frames, collecting all
published events in order. -/
def run_frames (unique_id : String) (frames : List BinanceFrame) (engine : Engine) :
    Engine × List MarketData :=
  match frames with
  | [] => (engine, [])
  | f :: rest =>
    let r := handle_message unique_id f engine
    let r' := run_frames unique_id rest r.1
    (r'.1, r.2 ++ r'.2)

/-- The stream-descriptor list built by each iteration of `connect_binance`
(the `#2. BUILD STREAMS` block), in source order.  `s_lower` is the
lower-cased symbol, `order_book_depth` the configured depth.  Note that no
descriptor is built from `funding_rate` or `open_interest`: funding data
rides on the `markPrice` stream, and the open-interest stream is
deliberately skipped. -/
def buildStreams (config : StreamConfig) (s_lower : String) (order_book_depth : Nat) :
    List String :=
  (if config.order_book then [s_lower ++ "@depth" ++ toString order_book_depth] else [])
  ++ (if config.raw_trades then [s_lower ++ "@trade"] else [])
  ++ (if config.agg_trades then [s_lower ++ "@aggTrade"] else [])
  ++ config.kline_intervals.map (fun interval => s_lower ++ "@kline_" ++ interval)
  ++ (if config.ticker then [s_lower ++ "@ticker"] else [])
  ++ (if config.book_ticker then [s_lower ++ "@bookTicker"] else [])
  ++ (if config.mark_price then [s_lower ++ "@markPrice"] else [])
  ++ (if config.liquidation then [s_lower ++ "@forceOrder"] else [])

/-- Outcome of one iteration of the `connect_binance` reconnect loop. -/
inductive AttemptOutcome where
  | handshakeFailed
  | connectedThenDrained
deriving DecidableEq, Repr

/-- One iteration of the `connect_binance` loop, abstracted to its backoff
behaviour.  On `Ok` the code sets `backoff_seconds = 1`, runs the read loop
until it breaks, and performs no sleep; on `Err` it sleeps
`backoff_seconds` seconds.  Either way the iteration ends with
`backoff_seconds = min(backoff_seconds * 2, binance_reconnect_delay)`.
Returns the new backoff and the list of sleeps performed. -/
def connect_iteration (max_backoff : Nat) (backoff : Nat) (o : AttemptOutcome) :
    Nat × List Nat :=
  match o with
  | .handshakeFailed => (min (backoff * 2) max_backoff, [backoff])
  | .connectedThenDrained => (min (1 * 2) max_backoff, [])

/-- Run the reconnect loop over a sequence of attempt outcomes, collecting
every sleep in order. -/
def connect_run (max_backoff : Nat) (backoff : Nat) :
    List AttemptOutcome → Nat × List Nat
  | [] => (backoff, [])
  | o :: os =>
    let r := connect_iteration max_backoff backoff o
    let r' := connect_run max_backoff r.1 os
    (r'.1, r.2 ++ r'.2)

--
-- REST BACKFILL (src/ingestion_engine/src/connectors/binance/binance_rest.rs)
--

/-- A `serde_json::Value` as far as the kline parser observes it. -/
inductive JVal where
  | jnull
  | jbool (b : Bool)
  | jnum (q : Rat)
  | jstr (s : String)
  | jarr (xs : List JVal)
deriving Repr

/-- `Value::as_array`. -/
def JVal.as_array : JVal → Option (List JVal)
  | .jarr xs => some xs
  | _ => none

/-- `Value::as_str`. -/
def JVal.as_str : JVal → Option String
  | .jstr s => some s
  | _ => none

/-- `Value::as_u64`: some only for non-negative integer numbers. -/
def JVal.as_u64 : JVal → Option Nat
  | .jnum q => if q.den = 1 ∧ 0 ≤ q.num then some q.num.toNat else none
  | _ => none

/-- The `get_f64` closure of `parse_kline_array`: look up index `idx`; if
the value is a JSON string, parse it (`0.0` on failure); in every other
case — index out of range, or the value is *not* a string (in particular a
JSON number) — return `0.0`. -/
def kline_get_f64 (arr : List JVal) (idx : Nat) : Rat :=
  match arr.get? idx with
  | some v =>
    match v.as_str with
    | some s => parseF64 s
    | none => 0
  | none => 0

/-- The `get_u64` closure of `parse_kline_array`. -/
def kline_get_u64 (arr : List JVal) (idx : Nat) : Nat :=
  ((arr.get? idx).bind JVal.as_u64).getD 0

/-- `parse_kline_array`: the response must be an array; each item must be
an array (otherwise the whole response fails); items with fewer than 7
elements are skipped; `is_closed` is forced `true`. -/
def parse_kline_items (symbol interval : String) : List JVal → Except String (List Candle)
  | [] => Except.ok []
  | item :: rest =>
    match item.as_array with
    | none => Except.error "Invalid candle format"
    | some arr =>
      if arr.length < 7 then parse_kline_items symbol interval rest
      else
        match parse_kline_items symbol interval rest with
        | Except.error e => Except.error e
        | Except.ok cs =>
          Except.ok
            ({ symbol := symbol, interval := interval,
               start_time := kline_get_u64 arr 0,
               open_ := kline_get_f64 arr 1, high := kline_get_f64 arr 2,
               low := kline_get_f64 arr 3, close := kline_get_f64 arr 4,
               volume := kline_get_f64 arr 5,
               close_time := kline_get_u64 arr 6,
               is_closed := true } :: cs)

/-- `parse_kline_array` entry point. -/
def parse_kline_array (symbol interval : String) (json : JVal) :
    Except String (List Candle) :=
  match json.as_array with
  | none => Except.error "Invalid response format: Expected array"
  | some raw_list => parse_kline_items symbol interval raw_list

--
-- SUBSCRIPTION SERVER (src/ingestion_engine/src/api/ws_server.rs)
--

/-- `str::to_uppercase()`: character-wise upper-casing (the embedded
symbols are ASCII, where Rust and Lean agree). -/
def toUpperAscii (s : String) : String :=
  String.mk (s.data.map Char.toUpper)

/-- The composite topic id built by `handle_connection` and
`spawn_connector`:
`format!("\x7b\x7d_\x7b\x7d_\x7b\x7d", exchange, market_type, channel).to_uppercase()`. -/
def uniqueIdOf (exchange : Exchange) (market_type : MarketType) (channel : String) :
    String :=
  toUpperAscii (exchange.display ++ "_" ++ market_type.display ++ "_" ++ channel)

/-- What one delivery on the session's broadcast receiver can be:
`Ok((json, data))`, `Err(RecvError::Lagged(n))`, or
`Err(RecvError::Closed)`. -/
inductive BusRecv where
  | message (json : String) (data : MarketData)
  | lagged (n : Nat)
  | closed
deriving Repr

/-- What the session event loop does with one broadcast delivery. -/
inductive SessionStep where
  | forward (json : String)
  | skip
  | endSession
deriving DecidableEq, Repr

/-- The `symbol` extraction of the broadcast arm (`HistoricalCandles` is
skipped: `continue`). -/
def MarketData.topicOf : MarketData → Option String
  | .orderBook b => some b.symbol
  | .trade t => some t.symbol
  | .aggTrade t => some t.symbol
  | .candle c => some c.symbol
  | .historicalCandles _ => none
  | .ticker t => some t.symbol
  | .bookTicker t => some t.symbol
  | .markPrice t => some t.symbol
  | .liquidation t => some t.symbol
  | .fundingRate t => some t.symbol
  | .openInterest t => some t.symbol

/-- The broadcast-receive arm of `handle_connection` in api/ws_server.rs.
`Ok((json, data))`: extract the topic (skipping `HistoricalCandles`),
forward the pre-serialized json iff the topic is subscribed.  Both error
variants — `Lagged(n)` and `Closed` — fall into the single `Err(_) => break`
arm, which ends the session. -/
def ws_server_bus_arm (subscribed_topics : List String) (r : BusRecv) : SessionStep :=
  match r with
  | .message json data =>
    match data.topicOf with
    | some symbol =>
      if symbol ∈ subscribed_topics then SessionStep.forward json else SessionStep.skip
    | none => SessionStep.skip
  | .lagged _ => SessionStep.endSession
  | .closed => SessionStep.endSession

/-- The error side of the broadcast-receive arm of the legacy server
(src/ingestion_engine/src/server.rs), which distinguishes the variants:
`Err(RecvError::Lagged(_)) => continue` ("Client too slow, skip frames but
keep connection") and `Err(_) => break`. -/
def server_rs_err_arm (r : BusRecv) : SessionStep :=
  match r with
  | .message _ _ => SessionStep.skip
  | .lagged _ => SessionStep.skip
  | .closed => SessionStep.endSession

/-- The `FetchHistory` arm of `handle_connection`: pick the interval from
the command's config (first kline interval, default "1m"); fetch via REST —
`fetch_binance_history` passes `&cmd.channel` verbatim to
`parse_kline_array` as the candle `symbol` — and on success load the
candles into the registry under the composite `unique_id` and reply
directly to this client with `HistoricalCandles`; nothing is broadcast.
Returns (engine, direct replies to this client). -/
def fetch_history_arm (cmd : Command) (engine : Engine) (rest_json : JVal) :
    Engine × List MarketData :=
  let unique_id := uniqueIdOf cmd.exchange cmd.market_type cmd.channel
  let interval :=
    match cmd.config with
    | some cfg => (cfg.kline_intervals.head?).getD "1m"
    | none => "1m"
  match parse_kline_array cmd.channel interval rest_json with
  | Except.ok candles =>
    let r := engine.load_historical_candles unique_id candles
    (r.1, [MarketData.historicalCandles candles])
  | Except.error _ => (engine, [])

/-- Run a list of `request_ingestion` calls in order, collecting the
returned booleans. -/
def run_requests (engine : Engine) : List String → Engine × List Bool
  | [] => (engine, [])
  | s :: rest =>
    let r := engine.request_ingestion s
    let r' := run_requests r.1 rest
    (r'.1, r.2 :: r'.2)

--
-- CONCRETE INSTANCES USED BY THE THEOREMS
--

/-- An engine fresh out of `Engine::new` with the stock config limits. -/
def engine0 : Engine :=
  { registry := [], active_ingestions := [], trade_limit := 500, candle_limit := 500 }

/-- An engine with `trade_history_limit = 3` (scenario 3 of the spec). -/
def engine3 : Engine :=
  { registry := [], active_ingestions := [], trade_limit := 3, candle_limit := 10 }

/-- An engine with both history limits configured to `0`. -/
def engineCap0 : Engine :=
  { registry := [], active_ingestions := [], trade_limit := 0, candle_limit := 0 }

/-- An engine with `candle_history_limit = 10` (scenario 4 of the spec). -/
def engine10 : Engine :=
  { registry := [], active_ingestions := [], trade_limit := 3, candle_limit := 10 }

def mkTrade (i : Nat) : Trade :=
  { id := i, symbol := "T", price := 1, quantity := 1, timestamp_ms := 0,
    side := TradeSide.Buy }

def mkCandle (st : Nat) : Candle :=
  { symbol := "T", interval := "1m", open_ := 1, high := 2, low := 0, close := 1,
    volume := 3, start_time := st, close_time := st + 59, is_closed := true }

/-- Registry after loading candles with start times `100, 200, ..., 1000`
(scenario 5 of the spec). -/
def engine100 : Engine :=
  (engine0.load_historical_candles "T"
    ((List.range 10).map (fun i => mkCandle (100 * (i + 1))))).1

/-- Fold `add_trade` over a list of trades for one topic. -/
def run_add_trades (e : Engine) (symbol : String) (ts : List Trade) : Engine :=
  ts.foldl (fun e t => (e.add_trade symbol t).1) e

/-- The stream config of scenario 2:
`\x7braw_trades:true, agg_trades:false, order_book:false, kline_intervals:[]\x7d`. -/
def claimCfg : StreamConfig :=
  { raw_trades := true, agg_trades := false, order_book := false,
    kline_intervals := [], ticker := false, book_ticker := false,
    mark_price := false, index_price := false, liquidation := false,
    funding_rate := false, open_interest := false, greeks := false }

def tradeFrameEx : BinanceFrame :=
  BinanceFrame.trade
    { id := 1, price := "100.5", quantity := "2", timestamp := 1000,
      is_buyer_maker := false }

def depthFrameEx : BinanceFrame :=
  BinanceFrame.depth
    { last_update_id := 42, final_update_id := none,
      bids := [("100", "1")], asks := [("101", "2")] }

def isOrderBookEvent : MarketData → Bool
  | .orderBook _ => true
  | _ => false

def isTradeEvent : MarketData → Bool
  | .trade _ => true
  | _ => false

/-- A `fetchhistory` command for raw symbol `BTCUSDT` on BINANCE/SPOT. -/
def cmdEx : Command :=
  { action := CommandAction.FetchHistory, channel := "BTCUSDT",
    exchange := Exchange.Binance, market_type := MarketType.Spot,
    end_time := none, config := none }

/-- A well-formed one-row klines REST response
(`[[100, "1.5", "2", "1", "1.8", "10", 160]]`). -/
def restEx : JVal :=
  JVal.jarr [JVal.jarr
    [JVal.jnum 100, JVal.jstr "1.5", JVal.jstr "2", JVal.jstr "1",
     JVal.jstr "1.8", JVal.jstr "10", JVal.jnum 160]]

/-- A klines row whose `open` field is the JSON *number* `5` rather than a
string. -/
def restNumRow : JVal :=
  JVal.jarr [JVal.jarr
    [JVal.jnum 100, JVal.jnum 5, JVal.jstr "2", JVal.jstr "1",
     JVal.jstr "1.8", JVal.jstr "10", JVal.jnum 160]]

def c100 : Candle := mkCandle 100
def c200 : Candle := mkCandle 200
def c300 : Candle := mkCandle 300

/-- The symbol state produced by scenario 4's bulk load. -/
def stLoaded : SymbolState :=
  (alookup (engine10.load_historical_candles "T" [c300, c100, c200]).1.registry "T").getD
    SymbolState.empty

/-- The candles matched by `get_history` before sorting and truncation: the
`result` accumulator loop of the source. -/
def history_matching (st : SymbolState) (end_time : Nat) : List Candle :=
  st.candles.foldl
    (fun acc p => acc ++ p.2.filter (fun c => decide (c.start_time < end_time))) []

--
-- HELPER LEMMAS
--

theorem sortByStart_sorted (q : List Candle) : (sortByStart q).Pairwise startLE :=
  List.sorted_insertionSort startLE q

theorem sortByStart_perm (q : List Candle) : (sortByStart q).Perm q :=
  List.perm_insertionSort startLE q

theorem sortByStart_length (q : List Candle) : (sortByStart q).length = q.length :=
  (sortByStart_perm q).length_eq

theorem alookup_mapval {β γ : Type} (f : β → γ) (m : List (String × β)) (k : String) :
    alookup (m.map (fun p => (p.1, f p.2))) k = (alookup m k).map f := by
  induction m with
  | nil => rfl
  | cons p rest ih =>
    by_cases h : p.1 = k <;> simp [alookup, h, ih]

theorem aupd_lookup_self {β : Type} (m : List (String × β)) (k : String) (d : β)
    (f : β → β) :
    alookup (aupd m k d f) k = some (f ((alookup m k).getD d)) := by
  induction m with
  | nil => simp [aupd, alookup]
  | cons p rest ih =>
    by_cases h : p.1 = k <;> simp [aupd, alookup, h, ih]

theorem aupd_lookup_other {β : Type} (m : List (String × β)) (k k' : String) (d : β)
    (f : β → β) (h : k' ≠ k) :
    alookup (aupd m k d f) k' = alookup m k' := by
  have hk : ¬ k = k' := fun hh => h (Eq.symm hh)
  induction m with
  | nil => simp [aupd, alookup, hk]
  | cons p rest ih =>
    obtain ⟨pk, pv⟩ := p
    by_cases hp : pk = k
    · simp [aupd, alookup, hp, hk]
    · by_cases hk' : pk = k' <;> simp [aupd, alookup, hp, hk', h, hk, ih]

theorem alookup_mem {β : Type} (m : List (String × β)) (k : String) (q : β)
    (h : alookup m k = some q) : ∃ pr ∈ m, pr.2 = q := by
  induction m with
  | nil => exact absurd h (by simp [alookup])
  | cons p rest ih =>
    obtain ⟨pk, pv⟩ := p
    by_cases hp : pk = k
    · rw [alookup, if_pos hp] at h
      exact ⟨(pk, pv), List.mem_cons_self _ _, Option.some.inj h⟩
    · rw [alookup, if_neg hp] at h
      obtain ⟨pr, hpr, hq⟩ := ih h
      exact ⟨pr, by simp [hpr], hq⟩

theorem aupd_vals_mem {β : Type} {P : β → Prop} (m : List (String × β)) (k : String)
    (d : β) (f : β → β) (hf : ∀ q, P (f q)) (hm : ∀ pr ∈ m, P pr.2) :
    ∀ pr ∈ aupd m k d f, P pr.2 := by
  induction m with
  | nil =>
    intro pr hpr
    simp only [aupd, List.mem_singleton] at hpr
    rw [hpr]
    exact hf d
  | cons p rest ih =>
    obtain ⟨pk, pv⟩ := p
    intro pr hpr
    by_cases hp : pk = k
    · simp only [aupd, if_pos hp, List.mem_cons] at hpr
      rcases hpr with h1 | h2
      · rw [h1]
        exact hf pv
      · exact hm pr (List.mem_cons_of_mem _ h2)
    · simp only [aupd, if_neg hp, List.mem_cons] at hpr
      rcases hpr with h1 | h2
      · rw [h1]
        exact hm (pk, pv) (List.mem_cons_self _ _)
      · exact ih (fun pr' hpr' => hm pr' (List.mem_cons_of_mem _ hpr')) pr h2

theorem trimFront_length_le {α : Type} (limit : Nat) (q : List α) :
    (trimFront limit q).length ≤ limit := by
  simp only [trimFront, List.length_drop]
  omega

theorem pushBounded_eq_drop {α : Type} (limit : Nat) (q : List α) (x : α)
    (h : q.length ≤ max limit 1) :
    pushBounded limit q x = (q ++ [x]).drop ((q.length + 1) - max limit 1) := by
  have hK1 : 1 ≤ max limit 1 := Nat.le_max_right limit 1
  have hKl : limit ≤ max limit 1 := Nat.le_max_left limit 1
  unfold pushBounded
  by_cases hl : limit ≤ q.length
  · rw [if_pos hl]
    cases q with
    | nil =>
      simp [Nat.sub_eq_zero_of_le hK1]
    | cons a as =>
      have hlen : (a :: as).length = max limit 1 := by
        rcases Nat.eq_zero_or_pos limit with h0 | h1
        · subst h0
          simp only [List.length_cons] at h ⊢
          omega
        · rw [Nat.max_eq_left h1] at h ⊢
          simp only [List.length_cons] at h hl ⊢
          omega
      have hd : ((a :: as).length + 1) - max limit 1 = 1 := by omega
      rw [hd, List.drop_append_of_le_length (by simp)]
  · rw [if_neg hl]
    have hd : (q.length + 1) - max limit 1 = 0 := by omega
    rw [hd, List.drop_zero]

theorem pushBounded_length_le {α : Type} (limit : Nat) (q : List α) (x : α)
    (h : q.length ≤ max limit 1) :
    (pushBounded limit q x).length ≤ max limit 1 := by
  rw [pushBounded_eq_drop limit q x h, List.length_drop, List.length_append]
  have hK1 : 1 ≤ max limit 1 := Nat.le_max_right limit 1
  simp only [List.length_cons, List.length_nil]
  omega

theorem foldl_pushBounded_drop {α : Type} (limit : Nat) :
    ∀ (ts : List α) (q : List α), q.length ≤ max limit 1 →
      ts.foldl (pushBounded limit) q = (q ++ ts).drop ((q ++ ts).length - max limit 1) := by
  intro ts
  induction ts with
  | nil =>
    intro q h
    simp [Nat.sub_eq_zero_of_le h]
  | cons t ts ih =>
    intro q h
    have hK1 : 1 ≤ max limit 1 := Nat.le_max_right limit 1
    have hstep := pushBounded_eq_drop limit q t h
    have hlen := pushBounded_length_le limit q t h
    have hd_le : q.length + 1 - max limit 1 ≤ (q ++ [t]).length := by
      simp only [List.length_append, List.length_cons, List.length_nil]
      omega
    rw [List.foldl_cons, ih _ hlen, hstep,
      ← List.drop_append_of_le_length hd_le, List.drop_drop]
    have harr : (q ++ [t]) ++ ts = q ++ t :: ts := by simp
    rw [harr]
    congr 1
    simp only [List.length_drop, List.length_append, List.length_cons, List.length_nil]
    omega

theorem load_fold_vals_le (L : Nat) :
    ∀ (cs : List Candle) (m : List (String × List Candle)),
      (∀ pr ∈ m, pr.2.length ≤ L) →
      ∀ pr ∈ cs.foldl
        (fun m c => aupd m c.interval [] (fun q => trimFront L (q ++ [c]))) m,
        pr.2.length ≤ L := by
  intro cs
  induction cs with
  | nil => intro m hm; exact hm
  | cons c cs ih =>
    intro m hm
    rw [List.foldl_cons]
    exact ih _ (aupd_vals_mem (P := fun q => q.length ≤ L) m c.interval [] _
      (fun q => trimFront_length_le L (q ++ [c])) hm)

theorem get_recent_trades_add (e : Engine) (s : String) (t : Trade) :
    (e.add_trade s t).1.get_recent_trades s
      = pushBounded e.trade_limit (e.get_recent_trades s) t := by
  simp only [Engine.add_trade, Engine.get_recent_trades, aupd_lookup_self]
  cases alookup e.registry s <;> simp [SymbolState.empty]

theorem run_add_trades_spec :
    ∀ (ts : List Trade) (e : Engine) (s : String),
      (run_add_trades e s ts).get_recent_trades s
        = ts.foldl (pushBounded e.trade_limit) (e.get_recent_trades s) := by
  intro ts
  induction ts with
  | nil => intro e s; rfl
  | cons t ts ih =>
    intro e s
    have hlim : (e.add_trade s t).1.trade_limit = e.trade_limit := rfl
    calc (run_add_trades e s (t :: ts)).get_recent_trades s
        = (run_add_trades (e.add_trade s t).1 s ts).get_recent_trades s := rfl
      _ = ts.foldl (pushBounded (e.add_trade s t).1.trade_limit)
            ((e.add_trade s t).1.get_recent_trades s) := ih _ s
      _ = ts.foldl (pushBounded e.trade_limit)
            (pushBounded e.trade_limit (e.get_recent_trades s) t) := by
            rw [hlim, get_recent_trades_add]

theorem foldl_append_flatten {α β : Type} (f : α → List β) :
    ∀ (l : List α) (init : List β),
      l.foldl (fun acc p => acc ++ f p) init = init ++ (l.map f).flatten := by
  intro l
  induction l with
  | nil => intro init; simp
  | cons p l ih =>
    intro init
    rw [List.foldl_cons, ih]
    simp [List.flatten_cons]

theorem history_matching_eq_flatten (st : SymbolState) (t : Nat) :
    history_matching st t
      = (st.candles.map (fun p => p.2.filter (fun c => decide (c.start_time < t)))).flatten := by
  unfold history_matching
  rw [foldl_append_flatten]
  rfl

theorem mem_history_matching (st : SymbolState) (t : Nat) (c : Candle) :
    c ∈ history_matching st t ↔ (∃ p ∈ st.candles, c ∈ p.2) ∧ c.start_time < t := by
  rw [history_matching_eq_flatten]
  simp only [List.mem_flatten, List.mem_map]
  constructor
  · rintro ⟨l, ⟨p, hp, rfl⟩, hc⟩
    rw [List.mem_filter] at hc
    exact ⟨⟨p, hp, hc.1⟩, by simpa using hc.2⟩
  · rintro ⟨⟨p, hp, hc⟩, ht⟩
    exact ⟨_, ⟨p, hp, rfl⟩, List.mem_filter.mpr ⟨hc, by simpa using ht⟩⟩

theorem run_requests_get? :
    ∀ (reqs : List String) (e : Engine) (i : Nat) (x : String),
      reqs.get? i = some x →
      (run_requests e reqs).2.get? i
        = some (decide (x ∉ e.active_ingestions ∧ x ∉ reqs.take i)) := by
  intro reqs
  induction reqs with
  | nil => intro e i x hx; cases i <;> cases hx
  | cons s rest ih =>
    intro e i x hx
    cases i with
    | zero =>
      rw [List.get?] at hx
      obtain rfl := Option.some.inj hx
      by_cases hs : s ∈ e.active_ingestions <;>
        simp [run_requests, Engine.request_ingestion, hs, List.get?]
    | succ i =>
      rw [List.get?] at hx
      have hrun : (run_requests e (s :: rest)).2
          = (e.request_ingestion s).2 :: (run_requests (e.request_ingestion s).1 rest).2 := rfl
      rw [hrun, List.get?, ih _ _ _ hx]
      congr 1
      rw [decide_eq_decide]
      by_cases hs : s ∈ e.active_ingestions
      · simp only [Engine.request_ingestion, if_pos hs, List.take_succ_cons,
          List.mem_cons]
        constructor
        · rintro ⟨h1, h2⟩
          exact ⟨h1, fun hor => hor.elim (fun hz => h1 (hz ▸ hs)) h2⟩
        · rintro ⟨h1, h2⟩
          exact ⟨h1, fun hz => h2 (Or.inr hz)⟩
      · simp only [Engine.request_ingestion, if_neg hs, List.take_succ_cons,
          List.mem_cons]
        constructor
        · rintro ⟨h1, h2⟩
          exact ⟨fun hz => h1 (Or.inr hz), fun hor => hor.elim (fun hz => h1 (Or.inl hz)) h2⟩
        · rintro ⟨h1, h2⟩
          exact ⟨fun hor => hor.elim (fun hz => h2 (Or.inl hz)) h1, fun hz => h2 (Or.inr hz)⟩

--
-- CLAIM THEOREMS
--

/-- C1: the broadcast-receive arm of the subscription server's session loop
(api/ws_server.rs) maps a "lagged by N" delivery to `endSession` — the
single `Err(_) => break` arm treats lag exactly like a closed bus — whereas
the legacy server iteration (server.rs) keeps the session alive on lag and
ends it only on a closed bus.  This refutes the claim that only a closed
bus ends the session from the broadcast side. -/
theorem C1_lag_breaks_session :
    ws_server_bus_arm ["BINANCE_SPOT_BTCUSDT"] (BusRecv.lagged 5)
      = SessionStep.endSession ∧
    ws_server_bus_arm ["BINANCE_SPOT_BTCUSDT"] BusRecv.closed
      = SessionStep.endSession ∧
    server_rs_err_arm (BusRecv.lagged 5) = SessionStep.skip :=
  ⟨rfl, rfl, rfl⟩

/-- C2: the `FetchHistory` path stores, under registry key
`BINANCE_SPOT_BTCUSDT`, candles whose `symbol` field is the raw channel
`BTCUSDT` (the REST fetcher passes `&cmd.channel` to `parse_kline_array`),
so the stored event's topic field differs byte-for-byte from the key it is
stored under. -/
theorem C2_fetch_history_topic_mismatch :
    (match alookup (fetch_history_arm cmdEx engine0 restEx).1.registry
        "BINANCE_SPOT_BTCUSDT" with
      | some st => (alookup st.candles "1m").map (fun q => q.map Candle.symbol)
      | none => none) = some (some ["BTCUSDT"]) ∧
    ¬ ("BTCUSDT" = "BINANCE_SPOT_BTCUSDT") :=
  ⟨by decide, by decide⟩

/-- C8: `parse_kline_array` evaluated at a row whose `open` field is the
JSON *number* `5`: the parsed candle has `open = 0.0` — the `get_f64`
closure only handles JSON strings, so a numeric wire field is not parsed
tolerantly but zeroed.  String fields, the index positions, the forced
`is_closed`, and the skipping of short rows behave as documented. -/
theorem C8_number_field_parsed_as_zero :
    (parse_kline_array "BTCUSDT" "1m" restNumRow).toOption
      = some [{ symbol := "BTCUSDT", interval := "1m", open_ := 0, high := 2,
                low := 1, close := mkRat 9 5, volume := 10, start_time := 100,
                close_time := 160, is_closed := true }] ∧
    kline_get_f64 [JVal.jnum 5] 0 = 0 ∧
    ¬ ((0 : Rat) = 5) ∧
    (parse_kline_array "BTCUSDT" "1m" (JVal.jarr [JVal.jarr [JVal.jnum 1]])).toOption
      = some [] :=
  ⟨by decide, by decide, by decide, by decide⟩

/-- C7 (counterexample): after an established connection ends (drain), the
reconnect-loop iteration performs *no* sleep — the `sleep` call sits only
in the handshake-failure branch — refuting the claim that the connector
sleeps `backoff` seconds before reconnecting in both cases. -/
theorem C7_no_sleep_after_drain :
    (connect_iteration 300 5 AttemptOutcome.connectedThenDrained).2 = [] ∧
    (connect_iteration 300 5 AttemptOutcome.handshakeFailed).2 = [5] :=
  ⟨rfl, rfl⟩

theorem connect_run_snd_cons (m b : Nat) (o : AttemptOutcome)
    (os : List AttemptOutcome) :
    (connect_run m b (o :: os)).2
      = (connect_iteration m b o).2 ++ (connect_run m (connect_iteration m b o).1 os).2 :=
  rfl

theorem connect_run_failures (max_backoff : Nat) :
    ∀ (n j : Nat),
      (connect_run max_backoff (min (2 ^ j) max_backoff)
        (List.replicate n AttemptOutcome.handshakeFailed)).2
        = (List.range n).map (fun k => min (2 ^ (j + k)) max_backoff) := by
  intro n
  induction n with
  | zero => intro j; rfl
  | succ n ih =>
    intro j
    have hmin : min (min (2 ^ j) max_backoff * 2) max_backoff
        = min (2 ^ (j + 1)) max_backoff := by
      rw [pow_succ]
      omega
    have h1 : (connect_iteration max_backoff (min (2 ^ j) max_backoff)
        AttemptOutcome.handshakeFailed).1 = min (2 ^ (j + 1)) max_backoff := by
      simpa [connect_iteration] using hmin
    have h2 : (connect_iteration max_backoff (min (2 ^ j) max_backoff)
        AttemptOutcome.handshakeFailed).2 = [min (2 ^ j) max_backoff] := rfl
    rw [List.replicate_succ, connect_run_snd_cons, h1, h2, ih (j + 1),
      List.range_succ_eq_map, List.map_cons, List.map_map]
    simp only [List.cons_append, List.nil_append, Nat.add_zero]
    congr 1
    refine List.map_congr_left (fun k _ => ?_)
    have hjk : j + 1 + k = j + Nat.succ k := by omega
    simp [Function.comp, hjk]

/-- C7 (amended): the backoff evolves as
`backoff <- min(backoff * 2, max_backoff)` after each attempt and resets to
1 on a successful handshake (so after a drained connection the next value
is `min 2 max_backoff`); the connector sleeps `backoff` seconds *only*
after a handshake failure, reconnecting immediately after a drained
connection; consequently `n` consecutive handshake failures from a fresh
start sleep `min(2^k, max_backoff)` seconds at the k-th failure. -/
theorem C7_backoff_amended :
    (∀ (max_backoff b : Nat),
      connect_iteration max_backoff b AttemptOutcome.handshakeFailed
        = (min (b * 2) max_backoff, [b])) ∧
    (∀ (max_backoff b : Nat),
      connect_iteration max_backoff b AttemptOutcome.connectedThenDrained
        = (min 2 max_backoff, [])) ∧
    (∀ (max_backoff n : Nat), 1 ≤ max_backoff →
      (connect_run max_backoff 1 (List.replicate n AttemptOutcome.handshakeFailed)).2
        = (List.range n).map (fun k => min (2 ^ k) max_backoff)) := by
  refine ⟨fun m b => rfl, fun m b => rfl, fun max_backoff n h1 => ?_⟩
  have h0 : min (2 ^ 0) max_backoff = 1 := by simpa using Nat.min_eq_left h1
  have h := connect_run_failures max_backoff n 0
  rw [h0] at h
  simpa using h

/-- C7 (witness for the amended theorem): three consecutive handshake
failures with `max_backoff = 300` sleep `[1, 2, 4]` seconds. -/
theorem C7_backoff_witness :
    1 ≤ 300 ∧
    (connect_run 300 1 (List.replicate 3 AttemptOutcome.handshakeFailed)).2
      = (List.range 3).map (fun k => min (2 ^ k) 300) :=
  ⟨by decide, C7_backoff_amended.2.2 300 3 (by decide)⟩

/-- C3 (counterexample): with the scenario-2 config
`\x7braw_trades:true, agg_trades:false, order_book:false, kline_intervals:[]\x7d`,
feeding one trade frame *and one depth frame* to the connector's message
handler produces one Trade broadcast **and one OrderBook broadcast** — not
zero — because `handle_message` dispatches on frame content alone and never
consults the stream config. -/
theorem C3_handler_filters_nothing :
    (run_frames "BINANCE_SPOT_BTCUSDT" [tradeFrameEx, depthFrameEx] engine0).2.countP
        isOrderBookEvent = 1 ∧
    (run_frames "BINANCE_SPOT_BTCUSDT" [tradeFrameEx, depthFrameEx] engine0).2.countP
        isTradeEvent = 1 ∧
    ¬ ((run_frames "BINANCE_SPOT_BTCUSDT" [tradeFrameEx, depthFrameEx] engine0).2.countP
        isOrderBookEvent = 0) :=
  ⟨by decide, by decide, by decide⟩

/-- C3 (amended): family filtering is honest at the subscription-URL level —
with the scenario-2 config the connector subscribes to exactly the trade
stream — and a subscribed trade frame produces exactly one Trade and zero
OrderBook broadcasts; but the demultiplexer does not filter by family, so a
frame of a disabled family that nevertheless arrives still produces its
event (previous theorem). -/
theorem C3_filter_honesty_amended :
    (∀ (s : String) (depth : Nat),
      buildStreams (claimCfg.sanitize_for_market MarketType.Spot) s depth
        = [s ++ "@trade"]) ∧
    (claimCfg.sanitize_for_market MarketType.Spot = claimCfg) ∧
    (∀ (uid : String) (ev : BinanceTradeEvent) (e : Engine),
      (handle_message uid (BinanceFrame.trade ev) e).2.countP isTradeEvent = 1 ∧
      (handle_message uid (BinanceFrame.trade ev) e).2.countP isOrderBookEvent = 0) ∧
    (∀ (uid : String) (ev : BinanceDepthEvent) (e : Engine),
      (handle_message uid (BinanceFrame.depth ev) e).2.countP isOrderBookEvent = 1) :=
  ⟨fun _ _ => rfl, rfl, fun _ _ _ => ⟨rfl, rfl⟩, fun _ _ _ => rfl⟩

/-- C5 (counterexample): with `trade_history_limit = 0`, appending a single
trade leaves a FIFO of length 1, exceeding the configured capacity 0 — the
code pops the front *before* pushing, so a FIFO always ends up non-empty
after an append. -/
theorem C5_capacity_zero_counterexample :
    ((engineCap0.add_trade "T" (mkTrade 1)).1.get_recent_trades "T").length = 1 ∧
    ¬ (((engineCap0.add_trade "T" (mkTrade 1)).1.get_recent_trades "T").length
        ≤ engineCap0.trade_limit) :=
  ⟨by decide, by decide⟩

/-- C5 (amended): after any sequence of appends into an initially empty
bounded FIFO, the retained content is exactly the last `max(capacity, 1)`
elements appended — so the length never exceeds `capacity` whenever
`capacity ≥ 1`, the oldest element is evicted on overflow, and with
`capacity = 0` the FIFO holds exactly the single most recent element; with
`trade_limit = 3` and trades `1..=5`, the final FIFO is
`[Trade\x7b3\x7d, Trade\x7b4\x7d, Trade\x7b5\x7d]`. -/
theorem C5_bounded_fifo_amended :
    (∀ (limit : Nat) (ts : List Trade),
      ts.foldl (pushBounded limit) [] = ts.drop (ts.length - max limit 1)) ∧
    (∀ (e : Engine) (s : String) (ts : List Trade),
      (run_add_trades e s ts).get_recent_trades s
        = ts.foldl (pushBounded e.trade_limit) (e.get_recent_trades s)) ∧
    (run_add_trades engine3 "T" ([1, 2, 3, 4, 5].map mkTrade)).get_recent_trades "T"
      = [mkTrade 3, mkTrade 4, mkTrade 5] := by
  refine ⟨fun limit ts => ?_, fun e s ts => run_add_trades_spec ts e s, by decide⟩
  simpa using foldl_pushBounded_drop limit ts [] (by simp)

theorem get_history_eq (e : Engine) (s : String) (t lim : Nat) :
    e.get_history s t lim =
      match alookup e.registry s with
      | some st =>
        let sorted := sortByStart (history_matching st t)
        if lim < sorted.length then sorted.drop (sorted.length - lim) else sorted
      | none => [] := rfl

/-- C9: `request_ingestion` is an idempotent set-insert — a repeated call
with the same topic returns `false`, and across any sequence of calls from
a fresh engine, the call at position `i` returns `true` exactly when its
topic does not occur earlier in the sequence (so the first call per topic
returns `true` and every later one `false`). -/
theorem C9_request_ingestion_idempotent :
    (∀ (e : Engine) (s : String),
      ((e.request_ingestion s).1.request_ingestion s).2 = false) ∧
    (∀ (reqs : List String) (i : Nat) (x : String),
      reqs.get? i = some x →
      (run_requests engine0 reqs).2.get? i = some (decide (x ∉ reqs.take i))) := by
  constructor
  · intro e s
    by_cases h : s ∈ e.active_ingestions <;> simp [Engine.request_ingestion, h]
  · intro reqs i x hx
    rw [run_requests_get? reqs engine0 i x hx]
    congr 1
    rw [decide_eq_decide]
    simp [engine0]

/-- C9 (witness): in the call sequence `["T", "T", "U", "T"]` from a fresh
engine, the second call (index 1) returns `false`. -/
theorem C9_request_ingestion_witness :
    (run_requests engine0 ["T", "T", "U", "T"]).2.get? 1
      = some (decide (("T" : String) ∉ (["T", "T", "U", "T"].take 1))) :=
  C9_request_ingestion_idempotent.2 ["T", "T", "U", "T"] 1 "T" (by decide)

/-- C10: a decoded `markPriceUpdate` frame produces exactly two broadcasts
for the same topic — a MarkPrice event and a FundingRate event whose rate
comes from the frame's `r` field and whose time is the frame's
`next_funding_time` — and writes both registry slots; and the
stream-descriptor list never depends on the `funding_rate` flag while the
`markPrice` stream (which carries the funding data) is subscribed whenever
`mark_price` is enabled. -/
theorem C10_mark_price_funding :
    (∀ (uid : String) (ev : BinanceMarkPriceEvent) (e : Engine),
      (handle_message uid (BinanceFrame.markPriceUpdate ev) e).2
        = [MarketData.markPrice
            { symbol := uid, mark_price := parseF64 ev.mark_price,
              index_price := parseF64 ev.index_price,
              next_funding_time := ev.next_funding_time },
           MarketData.fundingRate
            { symbol := uid, rate := parseF64 ev.funding_rate,
              time := ev.next_funding_time }] ∧
      ∃ st, alookup (handle_message uid (BinanceFrame.markPriceUpdate ev) e).1.registry uid
          = some st ∧
        st.mark_price = some
          { symbol := uid, mark_price := parseF64 ev.mark_price,
            index_price := parseF64 ev.index_price,
            next_funding_time := ev.next_funding_time } ∧
        st.funding_rate = some
          { symbol := uid, rate := parseF64 ev.funding_rate,
            time := ev.next_funding_time }) ∧
    (∀ (cfg : StreamConfig) (s : String) (d : Nat) (b : Bool),
      buildStreams { cfg with funding_rate := b } s d = buildStreams cfg s d) ∧
    (∀ (cfg : StreamConfig) (s : String) (d : Nat),
      (s ++ "@markPrice") ∈ buildStreams { cfg with mark_price := true } s d) := by
  refine ⟨fun uid ev e => ⟨rfl, ?_⟩, fun cfg s d b => by cases cfg; rfl,
    fun cfg s d => by cases cfg; simp [buildStreams]⟩
  refine ⟨{ (alookup e.registry uid).getD SymbolState.empty with
      mark_price := some
        { symbol := uid, mark_price := parseF64 ev.mark_price,
          index_price := parseF64 ev.index_price,
          next_funding_time := ev.next_funding_time },
      funding_rate := some
        { symbol := uid, rate := parseF64 ev.funding_rate,
          time := ev.next_funding_time } }, ?_, rfl, rfl⟩
  show alookup (aupd (aupd e.registry uid SymbolState.empty _) uid SymbolState.empty _) uid
      = _
  rw [aupd_lookup_self, aupd_lookup_self]
  rfl

/-- C4: `get_history` returns a list that is sorted non-decreasingly by
`start_time`, contains only candles with `start_time < end_time` drawn from
the topic's interval FIFOs, has length `min limit (#matching)`, is exactly
the last-`limit` suffix of the sorted matching candles, and — when at most
`limit` candles match — contains *every* matching candle; it returns `[]`
for an absent topic; and on candles at start times `100..=1000` step 100,
`get_history(T, 550, 3)` returns the candles at `[300, 400, 500]`. -/
theorem C4_get_history :
    (∀ (e : Engine) (s : String) (t lim : Nat),
      alookup e.registry s = none → e.get_history s t lim = []) ∧
    (∀ (e : Engine) (s : String) (t lim : Nat) (st : SymbolState),
      alookup e.registry s = some st →
        (e.get_history s t lim).Pairwise startLE ∧
        (∀ c ∈ e.get_history s t lim,
          c.start_time < t ∧ ∃ p ∈ st.candles, c ∈ p.2) ∧
        (e.get_history s t lim).length = min lim (history_matching st t).length ∧
        e.get_history s t lim
          = (sortByStart (history_matching st t)).drop
              ((history_matching st t).length - lim) ∧
        ((history_matching st t).length ≤ lim →
          ∀ p ∈ st.candles, ∀ c ∈ p.2, c.start_time < t →
            c ∈ e.get_history s t lim)) ∧
    (engine100.get_history "T" 550 3).map Candle.start_time = [300, 400, 500] := by
  refine ⟨fun e s t lim h => by rw [get_history_eq, h], fun e s t lim st h => ?_, by decide⟩
  have hr : e.get_history s t lim
      = (sortByStart (history_matching st t)).drop ((history_matching st t).length - lim) := by
    rw [get_history_eq, h]
    dsimp only
    by_cases hl : lim < (sortByStart (history_matching st t)).length
    · rw [if_pos hl, sortByStart_length]
    · rw [if_neg hl]
      have h0 : (history_matching st t).length - lim = 0 := by
        rw [← sortByStart_length]
        omega
      rw [h0, List.drop_zero]
  refine ⟨?_, ?_, ?_, hr, ?_⟩
  · rw [hr]
    exact List.Pairwise.sublist (List.drop_sublist _ _) (sortByStart_sorted _)
  · intro c hc
    rw [hr] at hc
    have hcL : c ∈ sortByStart (history_matching st t) := List.drop_subset _ _ hc
    have hcM : c ∈ history_matching st t := (sortByStart_perm _).mem_iff.mp hcL
    have := (mem_history_matching st t c).mp hcM
    exact ⟨this.2, this.1⟩
  · rw [hr, List.length_drop, sortByStart_length]
    omega
  · intro hlim p hp c hc ht
    have h0 : (history_matching st t).length - lim = 0 := by omega
    rw [hr, h0, List.drop_zero]
    exact (sortByStart_perm _).mem_iff.mpr
      ((mem_history_matching st t c).mpr ⟨⟨p, hp, hc⟩, ht⟩)

/-- C4 (witness): an absent topic yields `[]`, and the scenario-5 result is
sorted. -/
theorem C4_get_history_witness :
    engine0.get_history "X" 550 3 = [] ∧
    (engine100.get_history "T" 550 3).Pairwise startLE :=
  ⟨C4_get_history.1 engine0 "X" 550 3 (by decide),
   (C4_get_history.2.1 engine100 "T" 550 3
      ((alookup engine100.registry "T").getD SymbolState.empty) (by decide)).1⟩

/-- C6: `load_historical_candles` is a silent no-op on an empty list,
never publishes on the bus, and after loading a non-empty candle list every
interval FIFO of the topic is sorted non-decreasingly by `start_time` and —
provided the pre-state FIFOs respected the capacity — every FIFO has length
at most `candle_limit`; loading `[C(300), C(100), C(200)]` (all `"1m"`,
`candle_limit = 10`) leaves the `"1m"` FIFO equal to
`[C(100), C(200), C(300)]`. -/
theorem C6_load_historical :
    (∀ (e : Engine) (s : String), e.load_historical_candles s [] = (e, [])) ∧
    (∀ (e : Engine) (s : String) (cs : List Candle),
      (e.load_historical_candles s cs).2 = []) ∧
    (∀ (e : Engine) (s : String) (cs : List Candle) (st' : SymbolState),
      cs ≠ [] →
      alookup (e.load_historical_candles s cs).1.registry s = some st' →
        (∀ p ∈ st'.candles, p.2.Pairwise startLE) ∧
        ((∀ p ∈ ((alookup e.registry s).getD SymbolState.empty).candles,
            p.2.length ≤ e.candle_limit) →
          ∀ p ∈ st'.candles, p.2.length ≤ e.candle_limit)) ∧
    (match alookup (engine10.load_historical_candles "T" [c300, c100, c200]).1.registry
        "T" with
      | some st => alookup st.candles "1m"
      | none => none) = some [c100, c200, c300] := by
  refine ⟨fun e s => rfl, fun e s cs => by cases cs <;> rfl,
    fun e s cs st' hne hlook => ?_, by decide⟩
  rcases cs with _ | ⟨c, cs⟩
  · exact absurd rfl hne
  have hreg : (e.load_historical_candles s (c :: cs)).1.registry
      = aupd e.registry s SymbolState.empty (load_apply e.candle_limit (c :: cs)) := rfl
  rw [hreg, aupd_lookup_self] at hlook
  have hst : st' = load_apply e.candle_limit (c :: cs)
      ((alookup e.registry s).getD SymbolState.empty) := (Option.some.inj hlook).symm
  constructor
  · intro p hp
    rw [hst] at hp
    obtain ⟨p0, _, rfl⟩ := List.mem_map.mp hp
    exact sortByStart_sorted p0.2
  · intro hpre p hp
    rw [hst] at hp
    obtain ⟨p0, hp0, rfl⟩ := List.mem_map.mp hp
    have : p0.2.length ≤ e.candle_limit :=
      load_fold_vals_le e.candle_limit (c :: cs) _ hpre p0 hp0
    simpa [sortByStart_length] using this

/-- C6 (witness): the `"1m"` FIFO produced by the scenario-4 bulk load is
sorted and within capacity. -/
theorem C6_load_historical_witness :
    ([c100, c200, c300] : List Candle).Pairwise startLE ∧
    ([c100, c200, c300] : List Candle).length ≤ engine10.candle_limit :=
  ⟨(C6_load_historical.2.2.1 engine10 "T" [c300, c100, c200] stLoaded (by simp)
      (by decide)).1 ("1m", [c100, c200, c300]) (by decide),
   (C6_load_historical.2.2.1 engine10 "T" [c300, c100, c200] stLoaded (by simp)
      (by decide)).2 (by simp [engine10, alookup, SymbolState.empty])
      ("1m", [c100, c200, c300]) (by decide)⟩

end QuantSystem
